import Mathlib

/-!
Shallow embedding of the `inin` Iranian national-id validator
(`src/lib.rs`): the `NationalId` newtype, its `TryFrom<&str>`
validator, and the `NationalIdError` failure value.  Strings are
modelled as `List Char`; the Rust `u32` arithmetic stays within `Nat`
because every intermediate value is bounded by `9 * 54 < 2^32`.
-/

namespace Inin

/-- the Rust `char::is_whitespace` (the Unicode `White_Space` property),
used by `str::trim`. -/
def rustIsWhitespace (c : Char) : Bool :=
  decide ((9 ≤ c.toNat ∧ c.toNat ≤ 13) ∨ c.toNat = 0x20 ∨ c.toNat = 0x85 ∨
    c.toNat = 0xA0 ∨ c.toNat = 0x1680 ∨ (0x2000 ≤ c.toNat ∧ c.toNat ≤ 0x200A) ∨
    c.toNat = 0x2028 ∨ c.toNat = 0x2029 ∨ c.toNat = 0x202F ∨ c.toNat = 0x205F ∨
    c.toNat = 0x3000)

/-- Leading-whitespace removal, the first half of the Rust `str::trim`. -/
def trimStart (s : List Char) : List Char := s.dropWhile rustIsWhitespace

/-- Trailing-whitespace removal, the second half of the Rust `str::trim`. -/
def trimEnd (s : List Char) : List Char := (s.reverse.dropWhile rustIsWhitespace).reverse

/-- the Rust `str::trim`: strip leading and trailing whitespace. -/
def trim (s : List Char) : List Char := trimEnd (trimStart s)

/-- the Rust `format!("{:0>10}", s)`: left-pad with `'0'` to width 10
(counting chars); longer strings are returned unchanged. -/
def padLeft (s : List Char) : List Char := List.replicate (10 - s.length) '0' ++ s

/-- the Rust `char::to_digit(10)`: `some d` exactly for `'0'..'9'`. -/
def charToDigit (c : Char) : Option Nat :=
  if 48 ≤ c.toNat ∧ c.toNat ≤ 57 then some (c.toNat - 48) else none

/-- `value.chars().filter_map(|c| c.to_digit(10)).collect()`. -/
def extractDigits (s : List Char) : List Nat := s.filterMap charToDigit

/-- `(0..9).map(|i| digits[i] * (10 - i)).sum()`; the out-of-bounds
default `0` is never reached under the length guard of the validator. -/
def weightedSum (digits : List Nat) : Nat :=
  ((List.range 9).map (fun i => digits.getD i 0 * (10 - i))).sum

/-- The acceptance test of `try_from`: with `r = S % 11` and `c` the
last digit, `(r < 2 && r == c) || (r >= 2 && r + c == 11)`. -/
def checksumHolds (digits : List Nat) : Bool :=
  decide ((weightedSum digits % 11 < 2 ∧ weightedSum digits % 11 = digits.getLastD 0) ∨
    (2 ≤ weightedSum digits % 11 ∧ weightedSum digits % 11 + digits.getLastD 0 = 11))

/-- `pub struct NationalId(String)`. -/
structure NationalId where
  canonical : List Char
deriving DecidableEq

/-- `pub struct NationalIdError`: a single failure value. -/
inductive NationalIdError where
  | invalid
deriving DecidableEq

instance : DecidableEq (Except NationalIdError NationalId) := fun a b =>
  match a, b with
  | .ok x, .ok y =>
    if h : x = y then .isTrue (by rw [h]) else .isFalse (by simpa using h)
  | .error e, .error f =>
    if h : e = f then .isTrue (by rw [h]) else .isFalse (fun hh => h (by injection hh))
  | .ok _, .error _ => .isFalse (by simp)
  | .error _, .ok _ => .isFalse (by simp)

/-- The `Display` impl of `NationalIdError`. -/
def NationalIdError.display : NationalIdError → String
  | .invalid => "invalid iranian national id number"

/-- `NationalId::try_from`: trim, left-pad to 10, extract digits,
gate on exactly 10 digits, reject zero weighted sum, test checksum,
and on success wrap the padded string unchanged.  The Rust locals
`value` and `digits` are inlined as `padLeft (trim input)` and
`extractDigits (padLeft (trim input))`. -/
def tryFrom (input : List Char) : Except NationalIdError NationalId :=
  if (extractDigits (padLeft (trim input))).length ≠ 10 then .error .invalid
  else if weightedSum (extractDigits (padLeft (trim input))) = 0 then .error .invalid
  else if checksumHolds (extractDigits (padLeft (trim input))) then .ok ⟨padLeft (trim input)⟩
  else .error .invalid

/-! Sanity checks against the test suite of the repository (scenarios S1-S9). -/

example : tryFrom ("0451726707".toList) = .ok ⟨"0451726707".toList⟩ := by decide
example : tryFrom ("0040010007".toList) = .ok ⟨"0040010007".toList⟩ := by decide
example : tryFrom ("0814659438".toList) = .ok ⟨"0814659438".toList⟩ := by decide
example : tryFrom ("".toList) = .error .invalid := by decide
example : tryFrom ("123".toList) = .error .invalid := by decide
example : tryFrom ("123456ab".toList) = .error .invalid := by decide
example : tryFrom ("12345678ab".toList) = .error .invalid := by decide
example : tryFrom ("a814659438".toList) = .error .invalid := by decide
example : tryFrom ("0000000000".toList) = .error .invalid := by decide

example : tryFrom ("0451726707x".toList) = .ok ⟨"0451726707x".toList⟩ := by decide
example : tryFrom ("x0451726707".toList) = .ok ⟨"x0451726707".toList⟩ := by decide

/-! ### Helper lemmas on `dropWhile`, `trim` and `padLeft` -/

theorem head_false_of_dropWhile_cons {p : α → Bool} {l t : List α} {a : α}
    (h : l.dropWhile p = a :: t) : p a = false := by
  have hh := List.head?_dropWhile_not p l
  rw [h] at hh
  exact hh

theorem dropWhile_self_eq {p : α → Bool} (l : List α) :
    (l.dropWhile p).dropWhile p = l.dropWhile p := by
  cases h : l.dropWhile p with
  | nil => rfl
  | cons a t =>
    exact List.dropWhile_cons_of_neg (by simp [head_false_of_dropWhile_cons h])

theorem dropWhile_eq_self_of_all {p : α → Bool} {l : List α}
    (h : ∀ c ∈ l, p c = false) : l.dropWhile p = l := by
  cases l with
  | nil => rfl
  | cons a t => exact List.dropWhile_cons_of_neg (by simp [h a (by simp)])

theorem not_ws_of_digit {c : Char} (h : (charToDigit c).isSome) :
    rustIsWhitespace c = false := by
  unfold charToDigit at h
  split at h
  · rename_i hc
    unfold rustIsWhitespace
    simp only [decide_eq_false_iff_not]
    omega
  · simp at h

theorem reverse_trim (s : List Char) :
    (trim s).reverse = (trimStart s).reverse.dropWhile rustIsWhitespace := by
  show ((trimStart s).reverse.dropWhile rustIsWhitespace).reverse.reverse = _
  rw [List.reverse_reverse]

theorem dropWhile_reverse_trim (s : List Char) :
    (trim s).reverse.dropWhile rustIsWhitespace = (trim s).reverse := by
  rw [reverse_trim]
  exact dropWhile_self_eq _

theorem trimStart_trim (s : List Char) : trimStart (trim s) = trim s := by
  show (trim s).dropWhile rustIsWhitespace = trim s
  cases hrev : trim s with
  | nil => rfl
  | cons b r =>
    refine List.dropWhile_cons_of_neg ?_
    have hdecomp := List.takeWhile_append_dropWhile rustIsWhitespace (trimStart s).reverse
    rw [← reverse_trim s] at hdecomp
    obtain ⟨W, hu⟩ : ∃ W, trimStart s = trim s ++ W := by
      refine ⟨((trimStart s).reverse.takeWhile rustIsWhitespace).reverse, ?_⟩
      have hc := congrArg List.reverse hdecomp
      rw [List.reverse_append, List.reverse_reverse, List.reverse_reverse] at hc
      exact hc.symm
    have hcons : (trimStart s).dropWhile rustIsWhitespace = b :: (r ++ W) := by
      rw [show (trimStart s).dropWhile rustIsWhitespace = trimStart s from dropWhile_self_eq s,
        hu, hrev, List.cons_append]
    simp [head_false_of_dropWhile_cons hcons]

theorem trim_idem (s : List Char) : trim (trim s) = trim s := by
  show trimEnd (trimStart (trim s)) = trim s
  rw [trimStart_trim s]
  show ((trim s).reverse.dropWhile rustIsWhitespace).reverse = trim s
  rw [dropWhile_reverse_trim s, List.reverse_reverse]

theorem dropWhile_append_eq_self {p : α → Bool} {w t : List α}
    (hw : ∀ c ∈ w, p c = false) (ht : t.dropWhile p = t) :
    (w ++ t).dropWhile p = w ++ t := by
  induction w with
  | nil => simpa using ht
  | cons a w ih =>
    rw [List.cons_append, List.dropWhile_cons_of_neg (by simp [hw a (by simp)])]

theorem dropWhile_append_eq_self' {p : α → Bool} {x y : List α}
    (hx : x.dropWhile p = x) (hy : ∀ c ∈ y, p c = false) :
    (x ++ y).dropWhile p = x ++ y := by
  cases x with
  | nil => simpa using dropWhile_eq_self_of_all hy
  | cons a t =>
    rw [List.cons_append,
      List.dropWhile_cons_of_neg (by simp [head_false_of_dropWhile_cons hx])]

theorem padLeft_length (s : List Char) : (padLeft s).length = max 10 s.length := by
  unfold padLeft
  simp [List.length_append, List.length_replicate]
  omega

theorem padLeft_of_ge {s : List Char} (h : 10 ≤ s.length) : padLeft s = s := by
  unfold padLeft
  rw [Nat.sub_eq_zero_of_le h]
  simp

theorem trim_eq_self_of {l : List Char}
    (h1 : l.dropWhile rustIsWhitespace = l)
    (h2 : l.reverse.dropWhile rustIsWhitespace = l.reverse) :
    trim l = l := by
  show trimEnd (trimStart l) = l
  rw [show trimStart l = l from h1]
  show (l.reverse.dropWhile rustIsWhitespace).reverse = l
  rw [h2, List.reverse_reverse]

theorem charToDigit_zero_char : charToDigit '0' = some 0 := by decide

theorem extractDigits_append (a b : List Char) :
    extractDigits (a ++ b) = extractDigits a ++ extractDigits b :=
  List.filterMap_append a b charToDigit

theorem extractDigits_replicate_zero (n : Nat) :
    extractDigits (List.replicate n '0') = List.replicate n 0 :=
  List.filterMap_replicate_of_some charToDigit_zero_char

theorem length_extractDigits_le (s : List Char) :
    (extractDigits s).length ≤ s.length :=
  List.length_filterMap_le charToDigit s

theorem length_extractDigits_eq_iff {s : List Char} :
    (extractDigits s).length = s.length ↔ ∀ c ∈ s, (charToDigit c).isSome :=
  List.filterMap_length_eq_length

theorem length_extractDigits_lt {s : List Char} {c : Char}
    (hc : c ∈ s) (hn : charToDigit c = none) :
    (extractDigits s).length < s.length := by
  induction s with
  | nil => simp at hc
  | cons a t ih =>
    show ((a :: t).filterMap charToDigit).length < (a :: t).length
    rw [List.filterMap_cons]
    rcases List.mem_cons.mp hc with h | h
    · rw [← h, hn]
      exact Nat.lt_succ_of_le (List.length_filterMap_le _ _)
    · cases hfa : charToDigit a with
      | none => exact Nat.lt_succ_of_le (List.length_filterMap_le _ _)
      | some d =>
        simp only [List.length_cons]
        exact Nat.succ_lt_succ (ih h)

theorem trim_padLeft_trim (s : List Char) : trim (padLeft (trim s)) = padLeft (trim s) := by
  have hzeros : ∀ n, ∀ c ∈ List.replicate n '0', rustIsWhitespace c = false := by
    intro n c hc
    rw [List.eq_of_mem_replicate hc]
    decide
  refine trim_eq_self_of ?_ ?_
  · exact dropWhile_append_eq_self (hzeros _) (trimStart_trim s)
  · show (padLeft (trim s)).reverse.dropWhile rustIsWhitespace = (padLeft (trim s)).reverse
    unfold padLeft
    rw [List.reverse_append, List.reverse_replicate]
    exact dropWhile_append_eq_self' (dropWhile_reverse_trim s) (hzeros _)

theorem trimEnd_append_ws {y w : List Char}
    (hw : ∀ c ∈ w, rustIsWhitespace c = true) :
    trimEnd (y ++ w) = trimEnd y := by
  show ((y ++ w).reverse.dropWhile rustIsWhitespace).reverse
    = (y.reverse.dropWhile rustIsWhitespace).reverse
  rw [List.reverse_append, List.dropWhile_append_of_pos
    (fun a ha => hw a (List.mem_reverse.mp ha))]

theorem trim_append_ws {x w1 w2 : List Char}
    (h1 : ∀ c ∈ w1, rustIsWhitespace c = true)
    (h2 : ∀ c ∈ w2, rustIsWhitespace c = true) :
    trim (w1 ++ x ++ w2) = trim x := by
  have hstart : trimStart (w1 ++ x ++ w2) = trimStart (x ++ w2) := by
    show (w1 ++ x ++ w2).dropWhile rustIsWhitespace = (x ++ w2).dropWhile rustIsWhitespace
    rw [List.append_assoc]
    exact List.dropWhile_append_of_pos h1
  show trimEnd (trimStart (w1 ++ x ++ w2)) = trimEnd (trimStart x)
  rw [hstart]
  show trimEnd ((x ++ w2).dropWhile rustIsWhitespace)
    = trimEnd (x.dropWhile rustIsWhitespace)
  rw [List.dropWhile_append]
  cases hx : x.dropWhile rustIsWhitespace with
  | nil =>
    simp only [List.isEmpty_nil, if_true]
    rw [List.dropWhile_eq_nil_iff.mpr h2]
  | cons a t =>
    simp only [List.isEmpty_cons, if_false]
    exact trimEnd_append_ws h2

/-! ### Characterization of the validator -/

theorem tryFrom_eq_ok_iff {s : List Char} {nid : NationalId} :
    tryFrom s = .ok nid ↔
      nid = ⟨padLeft (trim s)⟩ ∧
      (extractDigits (padLeft (trim s))).length = 10 ∧
      weightedSum (extractDigits (padLeft (trim s))) ≠ 0 ∧
      checksumHolds (extractDigits (padLeft (trim s))) = true := by
  unfold tryFrom
  split_ifs with h1 h2 h3
  · simp [h1]
  · simp [h2]
  · simp only [Except.ok.injEq]
    constructor
    · intro h
      exact ⟨h.symm, not_not.mp h1, h2, h3⟩
    · intro h
      exact h.1.symm
  · simp [h3]

theorem tryFrom_total (s : List Char) :
    (∃ nid, tryFrom s = .ok nid) ∨ tryFrom s = .error .invalid := by
  unfold tryFrom
  split_ifs <;> simp

/-! ### Claims -/

/-- C1 as stated is false: the validator accepts the input `"0451726707x"`,
whose canonical form has 11 characters and contains the non-digit `'x'`. -/
theorem c1_counterexample :
    tryFrom ("0451726707x".toList) = .ok ⟨"0451726707x".toList⟩ ∧
    ("0451726707x".toList).length ≠ 10 ∧
    ¬∀ c ∈ "0451726707x".toList, (charToDigit c).isSome := by
  refine ⟨by decide, by decide, ?_⟩
  intro h
  exact absurd (h 'x' (by decide)) (by decide)

/-- C1 (amended): every National ID returned by the validator has a canonical
form of length at least 10 whose digit characters number exactly 10, with a
non-zero weighted sum over the first nine digits and a valid checksum; when
the trimmed input has at most 10 characters the canonical form additionally
has length exactly 10 and consists only of decimal digits. -/
theorem c1_construction_validity (s : List Char) (nid : NationalId)
    (h : tryFrom s = .ok nid) :
    10 ≤ nid.canonical.length ∧
    (extractDigits nid.canonical).length = 10 ∧
    weightedSum (extractDigits nid.canonical) ≠ 0 ∧
    checksumHolds (extractDigits nid.canonical) = true ∧
    ((trim s).length ≤ 10 →
      nid.canonical.length = 10 ∧ ∀ c ∈ nid.canonical, (charToDigit c).isSome) := by
  obtain ⟨hnid, hlen, hsum, hck⟩ := tryFrom_eq_ok_iff.mp h
  subst hnid
  refine ⟨?_, hlen, hsum, hck, ?_⟩
  · show 10 ≤ (padLeft (trim s)).length
    rw [padLeft_length]
    omega
  · intro hle
    have hplen : (padLeft (trim s)).length = 10 := by
      rw [padLeft_length]; omega
    refine ⟨hplen, ?_⟩
    exact length_extractDigits_eq_iff.mp (by rw [hlen, hplen])

theorem c1_construction_validity_witness :
    10 ≤ (NationalId.mk ("0451726707".toList)).canonical.length :=
  (c1_construction_validity ("0451726707".toList) ⟨"0451726707".toList⟩ (by decide)).1

/-- C2 as stated is false: the trimmed input `"x0451726707"` contains the
non-digit `'x'`, yet the validator accepts it (its 10 digit characters pass
the length gate). -/
theorem c2_counterexample :
    (∃ c ∈ trim ("x0451726707".toList), charToDigit c = none) ∧
    tryFrom ("x0451726707".toList) = .ok ⟨"x0451726707".toList⟩ :=
  ⟨⟨'x', by decide, by decide⟩, by decide⟩

/-- C2 (amended): an input whose trimmed form has at most 10 characters and
contains a non-digit character is rejected, because the extracted-digit
vector falls short of the length gate. -/
theorem c2_nondigit_rejection (s : List Char)
    (hlen : (trim s).length ≤ 10)
    (hc : ∃ c ∈ trim s, charToDigit c = none) :
    tryFrom s = .error .invalid := by
  obtain ⟨c, hmem, hnone⟩ := hc
  have h1 : (extractDigits (trim s)).length < (trim s).length :=
    length_extractDigits_lt hmem hnone
  have h2 : extractDigits (padLeft (trim s))
      = List.replicate (10 - (trim s).length) 0 ++ extractDigits (trim s) := by
    show extractDigits (List.replicate (10 - (trim s).length) '0' ++ trim s) = _
    rw [extractDigits_append, extractDigits_replicate_zero]
  have h3 : (extractDigits (padLeft (trim s))).length ≠ 10 := by
    rw [h2, List.length_append, List.length_replicate]
    omega
  unfold tryFrom
  rw [if_pos h3]

theorem c2_nondigit_rejection_witness :
    tryFrom ("12a".toList) = .error .invalid :=
  c2_nondigit_rejection ("12a".toList) (by decide) ⟨'a', by decide, by decide⟩

/-- C3: when the trimmed-and-padded input is exactly 10 decimal digits,
acceptance is equivalent to a non-zero weighted sum together with the
checksum relation; in particular the all-zeros input is rejected. -/
theorem c3_checksum_decides (s : List Char)
    (hlen : (padLeft (trim s)).length = 10)
    (hdig : ∀ c ∈ padLeft (trim s), (charToDigit c).isSome) :
    ((∃ nid, tryFrom s = .ok nid) ↔
      weightedSum (extractDigits (padLeft (trim s))) ≠ 0 ∧
      checksumHolds (extractDigits (padLeft (trim s))) = true) ∧
    tryFrom ("0000000000".toList) = .error .invalid := by
  have h10 : (extractDigits (padLeft (trim s))).length = 10 := by
    rw [length_extractDigits_eq_iff.mpr hdig, hlen]
  refine ⟨⟨?_, ?_⟩, by decide⟩
  · rintro ⟨nid, h⟩
    obtain ⟨-, -, hsum, hck⟩ := tryFrom_eq_ok_iff.mp h
    exact ⟨hsum, hck⟩
  · rintro ⟨hsum, hck⟩
    exact ⟨⟨padLeft (trim s)⟩, tryFrom_eq_ok_iff.mpr ⟨rfl, h10, hsum, hck⟩⟩

theorem c3_checksum_decides_witness :
    tryFrom ("0000000000".toList) = .error .invalid :=
  (c3_checksum_decides ("0000000000".toList) (by decide) (by decide)).2

/-- C4: the padded form left-pads the trimmed input with `'0'` to length at
least 10 without truncating longer inputs, and on acceptance the canonical
form is exactly this trimmed-and-padded string. -/
theorem c4_padding (s : List Char) :
    (padLeft (trim s)).length = max 10 (trim s).length ∧
    (∃ k, padLeft (trim s) = List.replicate k '0' ++ trim s) ∧
    ∀ nid, tryFrom s = .ok nid → nid.canonical = padLeft (trim s) := by
  refine ⟨padLeft_length _, ⟨10 - (trim s).length, rfl⟩, ?_⟩
  intro nid h
  rw [(tryFrom_eq_ok_iff.mp h).1]

theorem c4_padding_witness :
    (NationalId.mk ("0451726707".toList)).canonical
      = padLeft (trim ("0451726707".toList)) :=
  (c4_padding ("0451726707".toList)).2.2 ⟨"0451726707".toList⟩ (by decide)

/-- C5: re-validating the canonical form of an accepted National ID
succeeds and yields the same National ID. -/
theorem c5_idempotent (s : List Char) (nid : NationalId)
    (h : tryFrom s = .ok nid) : tryFrom nid.canonical = .ok nid := by
  obtain ⟨hnid, hlen, hsum, hck⟩ := tryFrom_eq_ok_iff.mp h
  subst hnid
  show tryFrom (padLeft (trim s)) = .ok ⟨padLeft (trim s)⟩
  have key : padLeft (trim (padLeft (trim s))) = padLeft (trim s) := by
    rw [trim_padLeft_trim s]
    exact padLeft_of_ge (by rw [padLeft_length]; omega)
  apply tryFrom_eq_ok_iff.mpr
  rw [key]
  exact ⟨rfl, hlen, hsum, hck⟩

theorem c5_idempotent_witness :
    tryFrom (NationalId.mk ("0814659438".toList)).canonical
      = .ok ⟨"0814659438".toList⟩ :=
  c5_idempotent ("0814659438".toList) ⟨"0814659438".toList⟩ (by decide)

/-- C6: for an input whose trimmed form is all digits with length at most
10, validation of the input and of its zero-padded trimmed form are the
same outcome (hence they accept together, with identical canonical forms). -/
theorem c6_padding_law (x : List Char)
    (hd : ∀ c ∈ trim x, (charToDigit c).isSome)
    (hl : (trim x).length ≤ 10) :
    tryFrom x = tryFrom (padLeft (trim x)) := by
  have hnws : ∀ c ∈ padLeft (trim x), rustIsWhitespace c = false := by
    intro c hc
    rcases List.mem_append.mp hc with h | h
    · rw [List.eq_of_mem_replicate h]; decide
    · exact not_ws_of_digit (hd c h)
  have htrim : trim (padLeft (trim x)) = padLeft (trim x) :=
    trim_eq_self_of (dropWhile_eq_self_of_all hnws)
      (dropWhile_eq_self_of_all (fun c hc => hnws c (List.mem_reverse.mp hc)))
  have hpad : padLeft (padLeft (trim x)) = padLeft (trim x) :=
    padLeft_of_ge (by rw [padLeft_length]; omega)
  unfold tryFrom
  rw [htrim, hpad]

theorem c6_padding_law_witness :
    tryFrom ("123".toList) = tryFrom (padLeft (trim ("123".toList))) :=
  c6_padding_law ("123".toList) (by decide) (by decide)

/-- C7: surrounding an input with whitespace-only strings does not change
the validation outcome. -/
theorem c7_trim_law (x w1 w2 : List Char)
    (h1 : ∀ c ∈ w1, rustIsWhitespace c = true)
    (h2 : ∀ c ∈ w2, rustIsWhitespace c = true) :
    tryFrom (w1 ++ x ++ w2) = tryFrom x := by
  unfold tryFrom
  rw [trim_append_ws h1 h2]

theorem c7_trim_law_witness :
    tryFrom (" ".toList ++ "0814659438".toList ++ "  ".toList)
      = tryFrom ("0814659438".toList) :=
  c7_trim_law ("0814659438".toList) (" ".toList) ("  ".toList)
    (by decide) (by decide)

/-- C8: the failure type has a single value, its rendering is the fixed
message, and every failure returned by the validator is that value. -/
theorem c8_single_failure :
    (∀ e1 e2 : NationalIdError, e1 = e2) ∧
    (∀ e : NationalIdError, e.display = "invalid iranian national id number") ∧
    ∀ s e, tryFrom s = .error e → e = NationalIdError.invalid := by
  refine ⟨?_, ?_, ?_⟩
  · intro e1 e2; cases e1; cases e2; rfl
  · intro e; cases e; rfl
  · intro s e _; cases e; rfl

theorem c8_single_failure_witness :
    NationalIdError.invalid = NationalIdError.invalid ∧
    NationalIdError.display .invalid = "invalid iranian national id number" :=
  ⟨c8_single_failure.2.2 ("".toList) .invalid (by decide),
    c8_single_failure.2.1 .invalid⟩

/-- C9: under the length-10 guard, the first nine indexed accesses and the
`last()` access into the digit vector all succeed, and the validator is
total: it returns either a National ID or the failure value. -/
theorem c9_index_safety (s : List Char)
    (h : (extractDigits (padLeft (trim s))).length = 10) :
    (∀ i, i < 10 → ((extractDigits (padLeft (trim s))).get? i).isSome) ∧
    (extractDigits (padLeft (trim s))).getLast? ≠ none ∧
    ((∃ nid, tryFrom s = .ok nid) ∨ tryFrom s = .error .invalid) := by
  refine ⟨?_, ?_, tryFrom_total s⟩
  · intro i hi
    rw [List.get?_eq_get (by omega)]
    rfl
  · rw [Ne, List.getLast?_eq_none_iff]
    intro hnil
    rw [hnil] at h
    simp at h

theorem c9_index_safety_witness :
    ((extractDigits (padLeft (trim ("0451726707".toList)))).get? 0).isSome :=
  (c9_index_safety ("0451726707".toList) (by decide)).1 0 (by decide)

/-- C10: every National ID produced by the validator holds a string with
exactly 10 decimal-digit characters, and those digits have a non-zero
weighted sum and satisfy the checksum relation, whatever the total length
of the held string. -/
theorem c10_held_digits (s : List Char) (nid : NationalId)
    (h : tryFrom s = .ok nid) :
    (extractDigits nid.canonical).length = 10 ∧
    weightedSum (extractDigits nid.canonical) ≠ 0 ∧
    checksumHolds (extractDigits nid.canonical) = true := by
  obtain ⟨hnid, hlen, hsum, hck⟩ := tryFrom_eq_ok_iff.mp h
  subst hnid
  exact ⟨hlen, hsum, hck⟩

theorem c10_held_digits_witness :
    (extractDigits (NationalId.mk ("0040010007".toList)).canonical).length = 10 :=
  (c10_held_digits ("0040010007".toList) ⟨"0040010007".toList⟩ (by decide)).1

end Inin
